import Mathlib

/-!
Verification of the early-stopping guard and preprocessing utilities of the
flood-forecast excerpt.  The guard (`EarlyStopper`) is embedded from
`flood_forecast/training_utils.py`; scores and `min_delta` (Python floats)
are modelled as rationals, the counter and patience (Python ints) as
integers, and the side-effecting checkpoint save as a boolean flag in the
result of `check_loss`.
-/

namespace FloodForecast

/-- State of the early-stopping guard, mirroring the attributes set in
`EarlyStopper.__init__`: `patience`, `min_delta`, `cumulative_delta`,
`counter` and `best_score` (which is `None` until the first call). -/
structure EarlyStopper where
  patience : ℤ
  min_delta : ℚ
  cumulative_delta : Bool
  counter : ℤ
  best_score : Option ℚ
  deriving Repr, DecidableEq

/-- Embedding of `EarlyStopper.__init__`: raises `ValueError` when
`patience < 1` or `min_delta < 0`, otherwise produces the initial state
with `counter = 0` and `best_score = None`. -/
def EarlyStopper.init (patience : ℤ) (min_delta : ℚ) (cumulative_delta : Bool) :
    Except String EarlyStopper :=
  if patience < 1 then
    Except.error "Argument patience should be positive integer."
  else if min_delta < 0 then
    Except.error "Argument min_delta should not be a negative number."
  else
    Except.ok ⟨patience, min_delta, cumulative_delta, 0, none⟩

/-- Result of one `check_loss` call: the returned boolean (continue
training?), whether `save_model_checkpoint` was invoked on this call, and
the state of the guard after the call. -/
structure CheckResult where
  cont : Bool
  saved : Bool
  state : EarlyStopper
  deriving Repr, DecidableEq

/-- Embedding of `EarlyStopper.check_loss`.  The Python code is:
first call (`best_score is None`) saves a checkpoint, sets `best_score`
and returns `True`; a call with `score + min_delta >= best_score`
optionally raises `best_score` (when `cumulative_delta` is false and
`score > best_score`), increments `counter`, and returns `False` exactly
when `counter >= patience`; otherwise (sufficient improvement) it saves a
checkpoint, sets `best_score`, resets `counter` to 0 and returns `True`. -/
def check_loss (s : EarlyStopper) (score : ℚ) : CheckResult :=
  match s.best_score with
  | none =>
      { cont := true, saved := true, state := { s with best_score := some score } }
  | some best =>
      if score + s.min_delta ≥ best then
        let s1 :=
          if s.cumulative_delta = false ∧ score > best then
            { s with best_score := some score, counter := s.counter + 1 }
          else
            { s with counter := s.counter + 1 }
        if s1.counter ≥ s.patience then
          { cont := false, saved := false, state := s1 }
        else
          { cont := true, saved := false, state := s1 }
      else
        { cont := true, saved := true,
          state := { s with best_score := some score, counter := 0 } }

/-- A score counts as non-improving for the current state exactly when the
guard's `elif` branch is taken: `best_score` is set and
`score + min_delta >= best_score`. -/
def nonImproving (s : EarlyStopper) (score : ℚ) : Bool :=
  match s.best_score with
  | none => false
  | some best => decide (score + s.min_delta ≥ best)

/-- Feed a list of scores to the guard in order, collecting the returned
booleans and the final state. -/
def runScores (s : EarlyStopper) (scores : List ℚ) : List Bool × EarlyStopper :=
  match scores with
  | [] => ([], s)
  | x :: xs =>
      let r := check_loss s x
      let rest := runScores r.state xs
      (r.cont :: rest.1, rest.2)

/-- Every score in the list is non-improving at the moment it is fed to
the guard (the state evolves between calls). -/
def nonImprovingSeq : EarlyStopper → List ℚ → Bool
  | _, [] => true
  | s, x :: xs => nonImproving s x && nonImprovingSeq (check_loss s x).state xs

/-- Unfolding of `check_loss` on a non-improving call: the counter is
incremented, patience is preserved, `best_score` stays set, nothing is
saved, and the call returns `true` exactly when the new counter is still
below patience. -/
lemma check_loss_nonImproving_spec (s : EarlyStopper) (x : ℚ)
    (h : nonImproving s x = true) :
    (check_loss s x).state.counter = s.counter + 1 ∧
    (check_loss s x).state.patience = s.patience ∧
    (check_loss s x).state.best_score ≠ none ∧
    (check_loss s x).saved = false ∧
    (check_loss s x).cont = decide (s.counter + 1 < s.patience) := by
  cases hbs : s.best_score with
  | none => simp [nonImproving, hbs] at h
  | some best =>
    have hge : x + s.min_delta ≥ best := by
      simpa [nonImproving, hbs] using h
    simp only [check_loss, hbs, if_pos hge]
    split
    · split <;> simp_all
    · split <;> simp_all

/-- C7: on a freshly constructed guard (so `best_score = None`, counter 0),
the first `check_loss` call saves a checkpoint, sets `best_score` to the
given score, leaves the counter at 0 and returns continue = true, whatever
the score's value. -/
theorem firstCall_saves_and_continues (p : ℤ) (md : ℚ) (cd : Bool)
    (s : EarlyStopper) (x : ℚ)
    (hinit : EarlyStopper.init p md cd = Except.ok s) :
    check_loss s x =
      { cont := true, saved := true,
        state := ⟨p, md, cd, 0, some x⟩ } := by
  unfold EarlyStopper.init at hinit
  split at hinit
  · exact absurd hinit (by simp)
  · split at hinit
    · exact absurd hinit (by simp)
    · obtain rfl : s = ⟨p, md, cd, 0, none⟩ := by
        simpa using hinit.symm
      rfl

/-- C7 witness: constructing a guard with patience 3 and calling it once
with score 42 saves, records best 42 and continues. -/
theorem firstCall_saves_and_continues_witness :
    check_loss ⟨3, 0, false, 0, none⟩ 42 =
      { cont := true, saved := true, state := ⟨3, 0, false, 0, some 42⟩ } :=
  firstCall_saves_and_continues 3 0 false ⟨3, 0, false, 0, none⟩ 42 rfl

/-- C6: construction fails exactly when `patience < 1` or `min_delta < 0`;
for valid arguments it succeeds with counter 0 and no best score. -/
theorem init_validation (p : ℤ) (md : ℚ) (cd : Bool) :
    ((∃ msg, EarlyStopper.init p md cd = Except.error msg) ↔ (p < 1 ∨ md < 0)) ∧
    (1 ≤ p → 0 ≤ md →
      EarlyStopper.init p md cd = Except.ok ⟨p, md, cd, 0, none⟩) := by
  unfold EarlyStopper.init
  constructor
  · constructor
    · rintro ⟨msg, hmsg⟩
      by_contra hcon
      push_neg at hcon
      rw [if_neg (by omega), if_neg (by exact not_lt.mpr hcon.2)] at hmsg
      exact absurd hmsg (by simp)
    · rintro (h | h)
      · exact ⟨_, by rw [if_pos h]⟩
      · rcases lt_or_le p 1 with h1 | h1
        · exact ⟨_, by rw [if_pos h1]⟩
        · exact ⟨_, by rw [if_neg (by omega), if_pos h]⟩
  · intro h1 h2
    rw [if_neg (by omega), if_neg (by exact not_lt.mpr h2)]

/-- C6 witness: patience 2, min_delta 1 construct the expected state. -/
theorem init_validation_witness :
    EarlyStopper.init 2 1 false = Except.ok ⟨2, 1, false, 0, none⟩ :=
  (init_validation 2 1 false).2 (by decide) (by decide)

/-- C5: on a non-improving call whose score strictly exceeds the current
best, `best_score` is raised to the score when `cumulative_delta` is
false but kept when it is true, and in both cases the counter is
incremented rather than reset. -/
theorem nonImproving_best_tracking (s : EarlyStopper) (x b : ℚ)
    (hb : s.best_score = some b) (hni : x + s.min_delta ≥ b) (hgt : x > b) :
    (s.cumulative_delta = false →
      (check_loss s x).state.best_score = some x ∧
      (check_loss s x).state.counter = s.counter + 1) ∧
    (s.cumulative_delta = true →
      (check_loss s x).state.best_score = some b ∧
      (check_loss s x).state.counter = s.counter + 1) := by
  have hni' : b ≤ x + s.min_delta := hni
  constructor
  · intro hcd
    have hco : s.cumulative_delta = false ∧ x > b := ⟨hcd, hgt⟩
    simp only [check_loss, hb, ge_iff_le, if_pos hni', if_pos hco]
    split <;> simp
  · intro hcd
    have hco : ¬(s.cumulative_delta = false ∧ x > b) := by simp [hcd]
    simp only [check_loss, hb, ge_iff_le, if_pos hni', if_neg hco]
    split <;> simp

/-- C5 witness: best 10, score 15, min_delta 0, cumulative_delta false:
best_score becomes 15 and the counter goes from 0 to 1. -/
theorem nonImproving_best_tracking_witness :
    (check_loss ⟨5, 0, false, 0, some 10⟩ 15).state.best_score = some 15 ∧
    (check_loss ⟨5, 0, false, 0, some 10⟩ 15).state.counter = 0 + 1 :=
  (nonImproving_best_tracking ⟨5, 0, false, 0, some 10⟩ 15 10 rfl (by norm_num)
    (by norm_num)).1 rfl

/-- C10: a `check_loss` call never changes the configuration fields
`patience`, `min_delta`, `cumulative_delta`, and keeps the counter
non-negative whenever it was non-negative before. -/
theorem check_loss_frame (s : EarlyStopper) (x : ℚ) :
    (check_loss s x).state.patience = s.patience ∧
    (check_loss s x).state.min_delta = s.min_delta ∧
    (check_loss s x).state.cumulative_delta = s.cumulative_delta ∧
    (0 ≤ s.counter → 0 ≤ (check_loss s x).state.counter) := by
  cases hbs : s.best_score with
  | none => simp [check_loss, hbs]
  | some best =>
    simp only [check_loss, hbs]
    split_ifs <;> refine ⟨rfl, rfl, rfl, fun h => by simp <;> omega⟩

/-- C10 witness: on a concrete guard the configuration survives a call and
the counter stays non-negative. -/
theorem check_loss_frame_witness :
    (check_loss ⟨4, 1, true, 2, some 7⟩ 9).state.patience = 4 ∧
    (check_loss ⟨4, 1, true, 2, some 7⟩ 9).state.min_delta = 1 ∧
    (check_loss ⟨4, 1, true, 2, some 7⟩ 9).state.cumulative_delta = true ∧
    0 ≤ (check_loss ⟨4, 1, true, 2, some 7⟩ 9).state.counter := by
  obtain ⟨h1, h2, h3, h4⟩ := check_loss_frame ⟨4, 1, true, 2, some 7⟩ 9
  exact ⟨h1, h2, h3, h4 (by decide)⟩

/-- C2 counterexample: with best score S = 10, min_delta = 1 and ε = 1, a
call with score S + min_delta + ε = 12 does not reset the counter (which
goes from 3 to 4): the guard treats lower scores as better, so the reset
happens below, not above, the best score. -/
theorem higher_score_does_not_reset :
    (check_loss ⟨5, 1, false, 3, some 10⟩ 12).state.counter = 4 ∧
    (check_loss ⟨5, 1, false, 3, some 10⟩ 12).state.counter ≠ 0 := by
  norm_num [check_loss]

/-- C2 amended: given best score S, a score S - min_delta - ε (ε > 0)
resets the counter to 0 and updates best_score to that score, whereas the
boundary score S - min_delta does not reset the counter (boundary
inclusive per the `>=` comparison). -/
theorem improvement_boundary (s : EarlyStopper) (S ε : ℚ)
    (hb : s.best_score = some S) (hε : 0 < ε) :
    (check_loss s (S - s.min_delta - ε)).state.counter = 0 ∧
    (check_loss s (S - s.min_delta - ε)).state.best_score =
      some (S - s.min_delta - ε) ∧
    (check_loss s (S - s.min_delta)).state.counter = s.counter + 1 := by
  have himp : ¬(S ≤ S - s.min_delta - ε + s.min_delta) := by
    intro h; nlinarith
  have hbd : S ≤ S - s.min_delta + s.min_delta := by nlinarith
  refine ⟨?_, ?_, ?_⟩
  · simp only [check_loss, hb, ge_iff_le, if_neg himp]
  · simp only [check_loss, hb, ge_iff_le, if_neg himp]
  · simp only [check_loss, hb, ge_iff_le, if_pos hbd]
    split <;> split <;> rfl

/-- C2 amended witness: best 10, min_delta 1, ε = 1: score 8 resets the
counter of 3 to 0 and sets best 8; score 9 increments the counter to 4. -/
theorem improvement_boundary_witness :
    (check_loss ⟨5, 1, false, 3, some 10⟩ (10 - 1 - 1)).state.counter = 0 ∧
    (check_loss ⟨5, 1, false, 3, some 10⟩ (10 - 1 - 1)).state.best_score =
      some (10 - 1 - 1) ∧
    (check_loss ⟨5, 1, false, 3, some 10⟩ (10 - 1)).state.counter = 3 + 1 :=
  improvement_boundary ⟨5, 1, false, 3, some 10⟩ 10 1 rfl (by norm_num)

/-- C3 counterexample: a guard with patience 1 fed the scores 10, 10, 0
returns true, then false (counter reached patience), then true again: an
improving score after the stop signal resets the counter, so the stopped
state is not terminal. -/
theorem stop_is_not_terminal :
    (runScores ⟨1, 0, false, 0, none⟩ [10, 10, 0]).1 = [true, false, true] := by
  norm_num [runScores, check_loss]

/-- C3 amended: on the call that brings the counter to patience or beyond
the guard returns continue = false, and every later call whose score is
non-improving also returns continue = false (the counter stays at or
above patience); an improving score, however, resets the guard. -/
theorem stop_persists_while_nonImproving (s : EarlyStopper) (x : ℚ)
    (hni : nonImproving s x = true) (hp : s.patience ≤ s.counter + 1) :
    (check_loss s x).cont = false ∧
    s.patience ≤ (check_loss s x).state.counter := by
  obtain ⟨hc, hpp, _, _, hcont⟩ := check_loss_nonImproving_spec s x hni
  refine ⟨?_, by omega⟩
  rw [hcont]
  simpa using by omega

/-- C3 amended witness: patience 1, counter 1 at best 10: a further
non-improving score 10 returns false and keeps the counter at patience. -/
theorem stop_persists_while_nonImproving_witness :
    (check_loss ⟨1, 0, false, 1, some 10⟩ 10).cont = false ∧
    (1 : ℤ) ≤ (check_loss ⟨1, 0, false, 1, some 10⟩ 10).state.counter :=
  stop_persists_while_nonImproving ⟨1, 0, false, 1, some 10⟩ 10
    (by norm_num [nonImproving]) (by norm_num)

/-- C4 counterexample: with cumulative_delta false, best 10 and min_delta
0, a call with score 15 changes best_score (to 15) yet performs no
checkpoint save on that call. -/
theorem best_change_without_save :
    (check_loss ⟨5, 0, false, 0, some 10⟩ 15).state.best_score = some 15 ∧
    (⟨5, 0, false, 0, some 10⟩ : EarlyStopper).best_score ≠ some 15 ∧
    (check_loss ⟨5, 0, false, 0, some 10⟩ 15).saved = false := by
  refine ⟨by norm_num [check_loss], by norm_num, by norm_num [check_loss]⟩

/-- C4 amended: a checkpoint is saved on a call exactly when it is the
first call (`best_score` is None) or the score is a sufficient
improvement (`score + min_delta < best_score`); best_score can also
change without a save, namely on a non-improving call with
cumulative_delta false and score above best. -/
theorem saved_iff_first_or_improvement (s : EarlyStopper) (x : ℚ) :
    (check_loss s x).saved = true ↔
      (s.best_score = none ∨
        ∃ b, s.best_score = some b ∧ x + s.min_delta < b) := by
  cases hbs : s.best_score with
  | none => simp [check_loss, hbs]
  | some best =>
    by_cases h : best ≤ x + s.min_delta
    · have hni : nonImproving s x = true := by
        simp only [nonImproving, hbs, ge_iff_le, decide_eq_true_eq]
        exact h
      obtain ⟨_, _, _, hsaved, _⟩ := check_loss_nonImproving_spec s x hni
      simp only [hsaved, Bool.false_eq_true, false_iff, not_or]
      refine ⟨by simp, ?_⟩
      rintro ⟨b, hb, hlt⟩
      obtain rfl : best = b := by simpa using hb
      exact absurd h (not_le.mpr hlt)
    · have hsaved : (check_loss s x).saved = true := by
        simp only [check_loss, hbs, ge_iff_le, if_neg h]
      simp only [hsaved, true_iff]
      exact Or.inr ⟨best, rfl, not_le.mp h⟩

/-- Unfolding lemma for `runScores` on a nonempty score list. -/
lemma runScores_cons (s : EarlyStopper) (x : ℚ) (xs : List ℚ) :
    (runScores s (x :: xs)).1 =
      (check_loss s x).cont :: (runScores (check_loss s x).state xs).1 := rfl

/-- Running the guard on a sequence of non-improving scores whose length
makes the counter reach patience exactly at the end returns true on every
call but the last and false on the last. -/
lemma runScores_nonImproving_exhausts (scores : List ℚ) :
    ∀ s : EarlyStopper, nonImprovingSeq s scores = true →
      s.patience = s.counter + scores.length →
      1 ≤ scores.length →
      (runScores s scores).1 =
        List.replicate (scores.length - 1) true ++ [false] := by
  induction scores with
  | nil => intro s _ _ hlen; simp at hlen
  | cons x xs ih =>
    intro s hseq hpat _
    rw [nonImprovingSeq, Bool.and_eq_true] at hseq
    obtain ⟨hni, hrest⟩ := hseq
    obtain ⟨hc, hp, _, _, hcont⟩ := check_loss_nonImproving_spec s x hni
    cases xs with
    | nil =>
      have hfalse : (check_loss s x).cont = false := by
        rw [hcont]
        simp only [List.length_cons, List.length_nil] at hpat
        simpa using by omega
      simp [runScores, hfalse]
    | cons y ys =>
      have htrue : (check_loss s x).cont = true := by
        rw [hcont]
        simp only [List.length_cons] at hpat
        simpa using by push_cast at hpat ⊢; omega
      have hpat' : (check_loss s x).state.patience =
          (check_loss s x).state.counter + (y :: ys).length := by
        rw [hp, hc]
        simp only [List.length_cons] at hpat ⊢
        push_cast at hpat ⊢
        omega
      have hrec := ih (check_loss s x).state hrest hpat' (by simp)
      rw [runScores_cons, htrue, hrec]
      simp [List.replicate_succ]

/-- C1: a guard with patience P (P ≥ 1), counter 0 and an established
best score, fed P consecutive non-improving scores, returns
continue = true on the first P - 1 of them and continue = false on
exactly the P-th. -/
theorem patience_exhaustion (P : ℕ) (s : EarlyStopper) (b : ℚ)
    (scores : List ℚ) (hP : 1 ≤ P) (hpat : s.patience = (P : ℤ))
    (hctr : s.counter = 0) (_hb : s.best_score = some b)
    (hlen : scores.length = P) (hseq : nonImprovingSeq s scores = true) :
    (runScores s scores).1 = List.replicate (P - 1) true ++ [false] := by
  have := runScores_nonImproving_exhausts scores s hseq
    (by rw [hpat, hctr, hlen]; ring) (by omega)
  rwa [hlen] at this

/-- C1 witness: patience 2, best 10, scores 10 then 10: the guard returns
true then false. -/
theorem patience_exhaustion_witness :
    (runScores ⟨2, 0, false, 0, some 10⟩ [10, 10]).1 =
      List.replicate 1 true ++ [false] :=
  patience_exhaustion 2 ⟨2, 0, false, 0, some 10⟩ 10 [10, 10] (by norm_num)
    rfl rfl rfl rfl
    (by norm_num [nonImprovingSeq, nonImproving, check_loss])

/-!
Preprocessing utilities.  The functions `back_forward_generic` and
`feature_fix` are called by the test suite but their bodies are not part
of the excerpt, so they are modelled from the specification text.
-/

/-- A time-series table: named columns, each a list of optional cells
(`none` models a missing value / NaN).  Row i of the table is entry i of
each column, so row count and row order are the lists' length and order. -/
abbrev Table := List (String × List (Option ℚ))

/-- One forward-fill pass: `carry` holds the last non-missing value seen
so far; missing cells are replaced by it. -/
def ffillFrom (carry : Option ℚ) : List (Option ℚ) → List (Option ℚ)
  | [] => []
  | none :: xs => carry :: ffillFrom carry xs
  | some v :: xs => some v :: ffillFrom (some v) xs

/-- Modelled from the spec: the per-column gap filling used by
`back_forward_generic` (its body is absent from the excerpt; only its
test is shown) — "missing values are filled using a combination of
forward-fill and backward-fill (forward fill applied first, remaining
gaps at the start of series resolved by backward fill)". -/
def fillColumn (xs : List (Option ℚ)) : List (Option ℚ) :=
  (ffillFrom none (ffillFrom none xs).reverse).reverse

/-- Modelled from the spec: `back_forward_generic(table, columns)` gap
fills each of the named columns and leaves every other column untouched. -/
def back_forward_generic (df : Table) (cols : List String) : Table :=
  df.map fun c => if c.1 ∈ cols then (c.1, fillColumn c.2) else c

/-- `ffillFrom` preserves the column length. -/
lemma ffillFrom_length (carry : Option ℚ) (xs : List (Option ℚ)) :
    (ffillFrom carry xs).length = xs.length := by
  induction xs generalizing carry with
  | nil => rfl
  | cons x xs ih => cases x <;> simp [ffillFrom, ih]

/-- `ffillFrom` keeps every non-missing cell in place. -/
lemma ffillFrom_getElem_some (carry : Option ℚ) (xs : List (Option ℚ))
    (i : ℕ) (v : ℚ) (h : xs[i]? = some (some v)) :
    (ffillFrom carry xs)[i]? = some (some v) := by
  induction xs generalizing carry i with
  | nil => simp at h
  | cons x xs ih =>
    cases i with
    | zero =>
      simp only [List.getElem?_cons_zero, Option.some_inj] at h
      subst h
      simp [ffillFrom]
    | succ n =>
      simp only [List.getElem?_cons_succ] at h
      cases x <;> simpa [ffillFrom] using ih _ n h

/-- `fillColumn` preserves the column length. -/
lemma fillColumn_length (xs : List (Option ℚ)) :
    (fillColumn xs).length = xs.length := by
  simp [fillColumn, ffillFrom_length]

/-- `fillColumn` keeps every non-missing cell at its original row index:
gap filling neither reorders nor drops rows. -/
lemma fillColumn_getElem_some (xs : List (Option ℚ)) (i : ℕ) (v : ℚ)
    (h : xs[i]? = some (some v)) : (fillColumn xs)[i]? = some (some v) := by
  have hi : i < xs.length := by
    by_contra hc
    rw [List.getElem?_eq_none (by omega)] at h
    exact absurd h (by simp)
  have h1 : (ffillFrom none xs)[i]? = some (some v) :=
    ffillFrom_getElem_some none xs i v h
  have hl1 : (ffillFrom none xs).length = xs.length := ffillFrom_length none xs
  have h2 : (ffillFrom none xs).reverse[xs.length - 1 - i]? = some (some v) := by
    rw [List.getElem?_reverse (by omega)]
    have : (ffillFrom none xs).length - 1 - (xs.length - 1 - i) = i := by omega
    rw [this]
    exact h1
  have h3 : (ffillFrom none (ffillFrom none xs).reverse)[xs.length - 1 - i]? =
      some (some v) :=
    ffillFrom_getElem_some none _ _ v h2
  have hl3 : (ffillFrom none (ffillFrom none xs).reverse).length = xs.length := by
    simp [ffillFrom_length, hl1]
  rw [fillColumn, List.getElem?_reverse (by omega)]
  have : (ffillFrom none (ffillFrom none xs).reverse).length - 1 - i =
      xs.length - 1 - i := by omega
  rw [this]
  exact h3

/-- C8: gap filling the column [100, NaN, NaN, 165, NaN] leaves index 3
at 165 and forward fills indices 1 and 2 with 100, mutates only the named
columns (a second column is untouched), preserves every column's name and
length (row count), and keeps every non-missing cell at its row index
(row ordering). -/
theorem back_forward_generic_example :
    back_forward_generic
        [("NumberOfAnimals", [some 100, none, none, some 165, none]),
         ("Other", [some 1, none, some 3, none, some 5])]
        ["NumberOfAnimals"] =
      [("NumberOfAnimals", [some 100, some 100, some 100, some 165, some 165]),
       ("Other", [some 1, none, some 3, none, some 5])] ∧
    (∀ (df : Table) (cols : List String),
        List.map Prod.fst (back_forward_generic df cols) =
          List.map Prod.fst df ∧
        List.map (fun c => c.2.length) (back_forward_generic df cols) =
          List.map (fun c => c.2.length) df) ∧
    (∀ (df : Table) (cols : List String) (c : String × List (Option ℚ)),
        c ∈ df → c.1 ∉ cols → c ∈ back_forward_generic df cols) ∧
    (∀ (xs : List (Option ℚ)) (i : ℕ) (v : ℚ),
        xs[i]? = some (some v) → (fillColumn xs)[i]? = some (some v)) := by
  refine ⟨?_, ?_, ?_, fillColumn_getElem_some⟩
  · simp [back_forward_generic, fillColumn, ffillFrom]
  · intro df cols
    constructor
    · simp only [back_forward_generic, List.map_map]
      refine List.map_congr_left fun c _ => ?_
      by_cases hc : c.1 ∈ cols <;> simp [hc]
    · simp only [back_forward_generic, List.map_map]
      refine List.map_congr_left fun c _ => ?_
      by_cases hc : c.1 ∈ cols <;> simp [hc, fillColumn_length]
  · intro df cols c hmem hnot
    have : (if c.1 ∈ cols then (c.1, fillColumn c.2) else c) = c := by
      rw [if_neg hnot]
    exact this ▸ List.mem_map_of_mem _ hmem

/-- C8 witness: the untouched second column stays in the output, and the
already-present cell 165 keeps its row index through gap filling. -/
theorem back_forward_generic_example_witness :
    ("Other", [some 1, none, some 3, none, some 5]) ∈
      back_forward_generic
        [("NumberOfAnimals", [some 100, none, none, some 165, none]),
         ("Other", [some 1, none, some 3, none, some 5])]
        ["NumberOfAnimals"] ∧
    (fillColumn [some 100, none, none, some 165, none])[3]? =
      some (some 165) :=
  ⟨back_forward_generic_example.2.2.1 _ ["NumberOfAnimals"]
      ("Other", [some 1, none, some 3, none, some 5]) (by simp) (by simp),
    back_forward_generic_example.2.2.2
      [some 100, none, none, some 165, none] 3 165 rfl⟩

/-- Modelled from the spec: the numeric time units carried by a parsed
entry of the time column (timestamp string parsing itself is outside the
model; `feature_fix` is given the already-parsed values). -/
structure Timestamp where
  hour : ℕ
  dayOfWeek : ℕ
  month : ℕ
  deriving Repr, DecidableEq

/-- Modelled from the spec: a unit's natural cycle length — 24 for hour,
7 for day-of-week, 12 for month; anything else is unrecognized. -/
def unitPeriod : String → Option ℕ
  | "hour" => some 24
  | "day_of_week" => some 7
  | "month" => some 12
  | _ => none

/-- The numeric value of a recognized unit for one time-column entry. -/
def unitValue (u : String) (t : Timestamp) : ℕ :=
  match u with
  | "hour" => t.hour
  | "day_of_week" => t.dayOfWeek
  | "month" => t.month
  | _ => 0

/-- A table of real-valued feature columns. -/
abbrev RTable := List (String × List ℝ)

/-- Modelled from the spec: `feature_fix(spec, time_column, table)` (its
body is absent from the excerpt; only its test is shown) — for each entry
requesting "cyclical" encoding of a unit, append the two columns
`sin_<unit>` and `cos_<unit>` holding sine/cosine of
`2π * value / period` where period is the unit's natural cycle length;
fail with an invalid-argument error when the requested unit is
unrecognized. -/
noncomputable def feature_fix (spec : List (String × String))
    (times : List Timestamp) (df : RTable) : Except String RTable :=
  match spec with
  | [] => Except.ok df
  | (u, kind) :: rest =>
      if kind = "cyclical" then
        match unitPeriod u with
        | none => Except.error ("Unrecognized unit: " ++ u)
        | some p =>
            feature_fix rest times
              (df ++
                [("sin_" ++ u, times.map fun t =>
                    Real.sin (2 * Real.pi * (unitValue u t : ℝ) / (p : ℝ))),
                 ("cos_" ++ u, times.map fun t =>
                    Real.cos (2 * Real.pi * (unitValue u t : ℝ) / (p : ℝ)))])
      else
        feature_fix rest times df

/-- C9: for every table, every time column and every recognized unit,
cyclically encoding the unit appends exactly the two new columns
`sin_<unit>` and `cos_<unit>` holding sine/cosine of
`2π * value / period` for the unit's natural period, leaving the
original columns untouched; in particular, for an hour value of 0 the
encoded pair is (0, 1) and for an hour value of 6 it is (1, 0). -/
theorem feature_fix_cyclical_append :
    (∀ (u : String) (p : ℕ) (times : List Timestamp) (df : RTable),
        unitPeriod u = some p →
        feature_fix [(u, "cyclical")] times df =
          Except.ok (df ++
            [("sin_" ++ u, times.map fun t =>
                Real.sin (2 * Real.pi * (unitValue u t : ℝ) / (p : ℝ))),
             ("cos_" ++ u, times.map fun t =>
                Real.cos (2 * Real.pi * (unitValue u t : ℝ) / (p : ℝ)))])) ∧
    (∀ t : Timestamp, t.hour = 0 →
        Real.sin (2 * Real.pi * (unitValue "hour" t : ℝ) / ((24 : ℕ) : ℝ)) = 0 ∧
        Real.cos (2 * Real.pi * (unitValue "hour" t : ℝ) / ((24 : ℕ) : ℝ)) = 1) ∧
    (∀ t : Timestamp, t.hour = 6 →
        Real.sin (2 * Real.pi * (unitValue "hour" t : ℝ) / ((24 : ℕ) : ℝ)) = 1 ∧
        Real.cos (2 * Real.pi * (unitValue "hour" t : ℝ) / ((24 : ℕ) : ℝ)) = 0) := by
  have hu : ∀ t : Timestamp, unitValue "hour" t = t.hour := fun _ => rfl
  refine ⟨?_, ?_, ?_⟩
  · intro u p times df hp
    simp [feature_fix, hp]
  · intro t ht
    have harg : (2 * Real.pi * (unitValue "hour" t : ℝ) / ((24 : ℕ) : ℝ)) = 0 := by
      rw [hu t, ht]
      push_cast
      ring
    rw [harg]
    exact ⟨Real.sin_zero, Real.cos_zero⟩
  · intro t ht
    have harg : (2 * Real.pi * (unitValue "hour" t : ℝ) / ((24 : ℕ) : ℝ)) =
        Real.pi / 2 := by
      rw [hu t, ht]
      push_cast
      ring
    rw [harg]
    exact ⟨Real.sin_pi_div_two, Real.cos_pi_div_two⟩

/-- C9 witness: encoding the hour on the concrete table [("x", [5, 7])]
with hour values 0 and 6 appends exactly "sin_hour" = [0, 1] and
"cos_hour" = [1, 0] after the untouched original column. -/
theorem feature_fix_cyclical_append_witness :
    feature_fix [("hour", "cyclical")] [⟨0, 0, 1⟩, ⟨6, 0, 1⟩]
        [("x", [5, 7])] =
      Except.ok [("x", [5, 7]),
        ("sin_hour", [0, 1]), ("cos_hour", [1, 0])] := by
  obtain ⟨hgen, h0, h6⟩ := feature_fix_cyclical_append
  rw [hgen "hour" 24 [⟨0, 0, 1⟩, ⟨6, 0, 1⟩] [("x", [5, 7])] rfl]
  simp only [List.map_cons, List.map_nil]
  rw [(h0 ⟨0, 0, 1⟩ rfl).1, (h0 ⟨0, 0, 1⟩ rfl).2,
    (h6 ⟨6, 0, 1⟩ rfl).1, (h6 ⟨6, 0, 1⟩ rfl).2]
  rfl

end FloodForecast
